import Mathlib

/-
Verification development for the Wasatch.PY SPI spectrometer driver.

Shallow embedding of the two source modules:
  * wasatch/WrapperWorker.py — background scheduler thread: command-queue
    de-duplication, command application, acquisition relay, shutdown.
  * wasatch/SPIDevice.py — bus protocol layer: EEPROM page read/write frames,
    trigger/ready acquisition, setting dispatch, averaging accumulator.

Machine bytes are modelled as Nat values (asserted < 256 where the Python
bytearray semantics requires it); Python exceptions are modelled by an
explicit error channel (PyErr); bus and signal-line interaction is modelled
as an explicit effect trace.
-/

namespace Wasatch

/-- Python exception classes that can propagate through the modelled code.
The unboundedWait constructor marks a busy-wait loop that can never exit in
the single-threaded model (it is not a Python exception but a divergence
marker). -/
inductive PyErr where
  | usbError
  | attributeError
  | indexError
  | valueError
  | unboundedWait
  deriving Repr, DecidableEq

/-- Observable effects of the device session: raw bus transactions,
signal-line changes, settle delays, and the calls made on the external
collaborators (calibration parser, settings object). -/
inductive Effect where
  | write (bytes : List Nat)
  | writeReadInto (cmd : List Nat) (len : Nat)
  | readInto (len : Nat)
  | sleepMs (ms : Nat)
  | readySample (b : Bool)
  | triggerSet (b : Bool)
  | parseCall (pages : List (List Nat))
  | setActivePixels (n : Nat)
  | setIntegrationDefault (n : Nat)
  deriving Repr, DecidableEq

/- ----------------------------------------------------------------
   WrapperWorker.dedupe (WrapperWorker.py lines 229-254)
   ---------------------------------------------------------------- -/

/-- A ControlObject is a (setting, value) pair. -/
abbrev ControlObject := String × Int

/-- One element of the command queue: a ControlObject, or the None poison
pill that requests shutdown. -/
abbrev QItem := Option ControlObject

/-- Name of a queue item as the Python code sees it: record.setting for a
ControlObject, None for the poison pill. -/
def itemName (it : QItem) : Option String := it.map Prod.fst

/-- The removal pass inside WrapperWorker.dedupe: new_keep collects every kept
item whose setting differs from the incoming one. Iterating touches
co.setting for every kept item, so a None (poison pill) already in the kept
list raises AttributeError. -/
def removeSetting : List QItem → Option String → Except PyErr (List QItem)
  | [], _ => Except.ok []
  | none :: _, _ => Except.error PyErr.attributeError
  | some co :: rest, s =>
      match removeSetting rest s with
      | Except.error e => Except.error e
      | Except.ok r =>
          Except.ok (if some co.1 = s then r else some co :: r)

/-- Main loop of WrapperWorker.dedupe: drain the queue front to back; for each
item remove any previously kept item with the same setting name, then append
the new item. -/
def dedupeGo : List QItem → List QItem → Except PyErr (List QItem)
  | keep, [] => Except.ok keep
  | keep, item :: rest =>
      match removeSetting keep (itemName item) with
      | Except.error e => Except.error e
      | Except.ok k => dedupeGo (k ++ [item]) rest

/-- WrapperWorker.dedupe over the drained batch (queue order is FIFO, so the
drained batch is processed front to back). -/
def dedupe (batch : List QItem) : Except PyErr (List QItem) :=
  dedupeGo [] batch

/-- Reference description of what dedupe computes on a well-formed batch: keep
exactly the items whose setting name does not occur again later in the batch,
in their original relative order (so each name survives at its last
occurrence, carrying the last enqueued value). -/
def keepLast : List QItem → List QItem
  | [] => []
  | x :: xs =>
      if itemName x ∈ xs.map itemName then keepLast xs else x :: keepLast xs

/-- The order the claim asks for: names listed by their first occurrence in
the batch. Formalises the claim sentence "in first-occurrence relative order
of their names". -/
def firstOccNames : List QItem → List (Option String)
  | [] => []
  | x :: xs => itemName x :: (firstOccNames xs).filter (fun n => n ≠ itemName x)

/-- Last enqueued item carrying a given name. -/
def lookupLastName (batch : List QItem) (s : Option String) : Option QItem :=
  (batch.filter (fun it => itemName it = s)).getLast?

/- Helper lemmas about keepLast and dedupe. -/

theorem keepLast_subset {it : QItem} :
    ∀ {l : List QItem}, it ∈ keepLast l → it ∈ l := by
  intro l
  induction l with
  | nil => intro h; simp [keepLast] at h
  | cons x xs ih =>
      intro h
      by_cases hx : itemName x ∈ xs.map itemName
      · simp [keepLast, hx] at h
        exact List.mem_cons_of_mem _ (ih h)
      · simp [keepLast, hx] at h
        rcases h with h | h
        · simp [h]
        · exact List.mem_cons_of_mem _ (ih h)

theorem keepLast_names_subset {n : Option String} :
    ∀ {l : List QItem}, n ∈ (keepLast l).map itemName → n ∈ l.map itemName := by
  intro l hn
  rcases List.mem_map.mp hn with ⟨it, hit, rfl⟩
  exact List.mem_map.mpr ⟨it, keepLast_subset hit, rfl⟩

theorem keepLast_names_nodup : ∀ l : List QItem, ((keepLast l).map itemName).Nodup := by
  intro l
  induction l with
  | nil => simp [keepLast]
  | cons x xs ih =>
      by_cases hx : itemName x ∈ xs.map itemName
      · simpa [keepLast, hx] using ih
      · simp only [keepLast, hx, if_false, List.map_cons, List.nodup_cons]
        exact ⟨fun hmem => hx (keepLast_names_subset hmem), ih⟩

theorem keepLast_none_free : ∀ {l : List QItem}, none ∉ l → none ∉ keepLast l := by
  intro l hl hmem
  exact hl (keepLast_subset hmem)

/-- On a kept list that holds no poison pill, the removal pass is a plain
filter on the setting name. -/
theorem removeSetting_none_free :
    ∀ (keep : List QItem), none ∉ keep → ∀ s,
      removeSetting keep s = Except.ok (keep.filter (fun it => itemName it ≠ s)) := by
  intro keep
  induction keep with
  | nil => intro _ s; simp [removeSetting]
  | cons x xs ih =>
      intro hx s
      match x with
      | none => exact absurd (List.mem_cons_self none xs) hx
      | some co =>
          have hxs : none ∉ xs := fun h => hx (List.mem_cons_of_mem _ h)
          by_cases hco : some co.1 = s
          · simp [removeSetting, ih hxs s, hco, itemName, List.filter]
          · simp [removeSetting, ih hxs s, hco, itemName, List.filter]

/-- Membership of a name in the mapped names survives filtering out a
different name. -/
theorem name_mem_filter {n s : Option String} (hns : n ≠ s) (l : List QItem) :
    n ∈ (l.filter (fun it => itemName it ≠ s)).map itemName ↔ n ∈ l.map itemName := by
  simp only [List.mem_map, List.mem_filter, decide_eq_true_eq]
  constructor
  · rintro ⟨it, ⟨hit, _⟩, rfl⟩
    exact ⟨it, hit, rfl⟩
  · rintro ⟨it, hit, rfl⟩
    exact ⟨it, ⟨hit, fun he => hns (by rw [he])⟩, rfl⟩

/-- Unfolding equation for keepLast on a cons cell. -/
theorem keepLast_cons (x : QItem) (xs : List QItem) :
    keepLast (x :: xs) =
      if itemName x ∈ xs.map itemName then keepLast xs else x :: keepLast xs := rfl

/-- Dropping the earlier occurrences of the name of x from the prefix does not
change which items survive keepLast, because x itself occurs later. -/
theorem keepLast_filter_cons (x : QItem) (rest : List QItem) :
    ∀ keep : List QItem,
      keepLast (keep ++ x :: rest) =
      keepLast ((keep.filter (fun it => itemName it ≠ itemName x)) ++ x :: rest) := by
  intro keep
  induction keep with
  | nil => simp
  | cons y ys ih =>
      rw [List.cons_append, keepLast_cons, List.filter_cons]
      by_cases hy : itemName y = itemName x
      · have hmem : itemName y ∈ (ys ++ x :: rest).map itemName := by
          rw [hy]
          exact List.mem_map.mpr ⟨x, by simp, rfl⟩
        rw [if_pos hmem,
          if_neg (show ¬((fun it => decide (itemName it ≠ itemName x)) y = true) by simp [hy])]
        exact ih
      · rw [if_pos (show (fun it => decide (itemName it ≠ itemName x)) y = true by simp [hy]),
          List.cons_append, keepLast_cons]
        have hiff : itemName y ∈
              ((ys.filter (fun it => itemName it ≠ itemName x)) ++ x :: rest).map itemName ↔
            itemName y ∈ (ys ++ x :: rest).map itemName := by
          rw [List.map_append, List.map_append, List.mem_append, List.mem_append]
          exact or_congr (name_mem_filter hy ys) Iff.rfl
        by_cases hmem : itemName y ∈ (ys ++ x :: rest).map itemName
        · rw [if_pos hmem, if_pos (hiff.mpr hmem), ih]
        · rw [if_neg hmem, if_neg (fun hc => hmem (hiff.mp hc)), ih]

/-- keepLast is the identity on a list whose names are already distinct. -/
theorem keepLast_eq_self_of_nodup :
    ∀ l : List QItem, (l.map itemName).Nodup → keepLast l = l := by
  intro l
  induction l with
  | nil => intro _; rfl
  | cons x xs ih =>
      intro h
      simp only [List.map_cons, List.nodup_cons] at h
      simp [keepLast, h.1, ih h.2]

/-- The dedupe main loop on a poison-free batch computes keepLast of the kept
prefix followed by the batch. -/
theorem dedupeGo_none_free :
    ∀ batch keep : List QItem, none ∉ batch → none ∉ keep →
      ((keep.map itemName).Nodup) →
      dedupeGo keep batch = Except.ok (keepLast (keep ++ batch)) := by
  intro batch
  induction batch with
  | nil =>
      intro keep _ _ hnd
      simp [dedupeGo, keepLast_eq_self_of_nodup keep hnd]
  | cons x rest ih =>
      intro keep hb hk hnd
      have hxb : x ≠ none := by
        intro hx
        exact hb (hx ▸ List.mem_cons_self x rest)
      have hrest : none ∉ rest := fun h => hb (List.mem_cons_of_mem _ h)
      have hrm := removeSetting_none_free keep hk (itemName x)
      simp only [dedupeGo, hrm]
      set keepF := keep.filter (fun it => itemName it ≠ itemName x) with hkF
      have hkF_none : none ∉ keepF ++ [x] := by
        intro hmem
        rcases List.mem_append.mp hmem with h | h
        · exact hk (List.mem_of_mem_filter h)
        · simp at h
          exact hxb h.symm
      have hkF_sub : keepF.map itemName ⊆ keep.map itemName := by
        intro n hn
        rcases List.mem_map.mp hn with ⟨it, hit, rfl⟩
        exact List.mem_map.mpr ⟨it, List.mem_of_mem_filter hit, rfl⟩
      have hkF_nd : ((keepF ++ [x]).map itemName).Nodup := by
        rw [List.map_append]
        refine List.Nodup.append ?_ (by simp) ?_
        · exact List.Nodup.sublist (List.Sublist.map itemName (List.filter_sublist keep)) hnd
        · intro n hn hn2
          simp only [List.map_cons, List.map_nil, List.mem_singleton] at hn2
          subst hn2
          rcases List.mem_map.mp hn with ⟨it, hit, hname⟩
          have := List.of_mem_filter hit
          simp only [decide_eq_true_eq] at this
          exact this hname
      have := ih (keepF ++ [x]) hrest hkF_none hkF_nd
      rw [this]
      have hassoc : (keepF ++ [x]) ++ rest = keepF ++ x :: rest := by simp
      rw [hassoc, ← keepLast_filter_cons x rest keep]

/-- dedupe splits over an appended batch. -/
theorem dedupeGo_append :
    ∀ (a : List QItem) (keep b : List QItem),
      dedupeGo keep (a ++ b) =
        match dedupeGo keep a with
        | Except.error e => Except.error e
        | Except.ok k => dedupeGo k b := by
  intro a
  induction a with
  | nil => intro keep b; simp [dedupeGo]
  | cons x rest ih =>
      intro keep b
      simp only [List.cons_append, dedupeGo]
      cases removeSetting keep (itemName x) with
      | error e => rfl
      | ok k => exact ih (k ++ [x]) b

/-- A poison-free list passes the removal pass for the None key untouched. -/
theorem removeSetting_none_key (l : List QItem) (hl : none ∉ l) :
    removeSetting l none = Except.ok l := by
  rw [removeSetting_none_free l hl none]
  congr 1
  apply List.filter_eq_self.mpr
  intro it hit
  simp only [decide_eq_true_eq]
  intro hname
  match it with
  | none => exact hl hit
  | some co => simp [itemName] at hname

/-- Each surviving item is the last item of its name in the batch. -/
theorem keepLast_lookupLast :
    ∀ l : List QItem, ∀ it ∈ keepLast l, lookupLastName l (itemName it) = some it := by
  intro l
  induction l with
  | nil => intro it hit; simp [keepLast] at hit
  | cons x xs ih =>
      intro it hit
      by_cases hx : itemName x ∈ xs.map itemName
      · simp only [keepLast, hx, if_true] at hit
        have hlast := ih it hit
        unfold lookupLastName at hlast ⊢
        rw [List.filter_cons]
        by_cases hxe : itemName x = itemName it
        · rw [if_pos (by simp [hxe])]
          have hne : xs.filter (fun it2 => itemName it2 = itemName it) ≠ [] := by
            intro hnil
            rw [hnil] at hlast
            simp [List.getLast?] at hlast
          match hfe : xs.filter (fun it2 => itemName it2 = itemName it) with
          | [] => exact absurd hfe hne
          | y :: ys =>
              rw [hfe] at hlast
              rw [List.getLast?_cons_cons]
              exact hlast
        · rw [if_neg (by simp [hxe])]
          exact hlast
      · simp only [keepLast, hx, if_false, List.mem_cons] at hit
        rcases hit with rfl | hit
        · unfold lookupLastName
          rw [List.filter_cons, if_pos (by simp)]
          have hnil : xs.filter (fun it2 => itemName it2 = itemName it) = [] := by
            apply List.filter_eq_nil_iff.mpr
            intro a ha
            simp only [decide_eq_true_eq]
            intro hname
            exact hx (List.mem_map.mpr ⟨a, ha, hname⟩)
          rw [hnil]
          rfl
        · have hname_mem : itemName it ∈ xs.map itemName :=
            keepLast_names_subset (List.mem_map.mpr ⟨it, hit, rfl⟩)
          have hne : itemName x ≠ itemName it := fun he => hx (he ▸ hname_mem)
          unfold lookupLastName
          rw [List.filter_cons, if_neg (by simp [hne])]
          exact ih it hit

/-- C1. The claim as stated is false on the code: WrapperWorker.dedupe keeps
the surviving entries in last-occurrence relative order, not first-occurrence
order. For the batch [(a,1),(b,2),(a,3)] the code returns [(b,2),(a,3)],
while first-occurrence order of the surviving names would put name a first.
-/
theorem dedupe_first_occurrence_counterexample :
    dedupe [some ("a", (1 : Int)), some ("b", 2), some ("a", 3)] =
      Except.ok [some ("b", 2), some ("a", 3)] ∧
    ([some ("b", (2 : Int)), some ("a", 3)] : List QItem).map itemName ≠
      firstOccNames [some ("a", (1 : Int)), some ("b", 2), some ("a", 3)] := by
  constructor
  · rfl
  · decide

/-- C1 (amended). For every poison-free batch of setting commands,
WrapperWorker.dedupe succeeds and returns exactly the items whose name does
not occur again later in the batch, in their original relative order — i.e.
at most one entry per name, each equal to the last enqueued item for that
name, in last-occurrence relative order of the names. -/
theorem dedupe_last_occurrence (batch : List QItem) (h : none ∉ batch) :
    dedupe batch = Except.ok (keepLast batch) ∧
    ((keepLast batch).map itemName).Nodup ∧
    (∀ it ∈ keepLast batch, lookupLastName batch (itemName it) = some it) := by
  refine ⟨?_, keepLast_names_nodup batch, keepLast_lookupLast batch⟩
  have := dedupeGo_none_free batch [] h (by simp) (by simp)
  simpa [dedupe] using this

/-- C1 witness: the amended theorem evaluated on the concrete batch
[(a,1),(b,2),(a,3)]. -/
theorem dedupe_last_occurrence_witness :
    dedupe [some ("a", (1 : Int)), some ("b", 2), some ("a", 3)] =
      Except.ok (keepLast [some ("a", (1 : Int)), some ("b", 2), some ("a", 3)]) :=
  (dedupe_last_occurrence [some ("a", (1 : Int)), some ("b", 2), some ("a", 3)]
    (by decide)).1

/- ----------------------------------------------------------------
   SPIDevice session state and Reading (SPIDevice.py lines 27-148)
   ---------------------------------------------------------------- -/

/-- Modelled from the spec: the Reading value object (spec section 3) lives in
the external Reading module, not among the sources. It holds the session
sequence number, integration time, laser parameters, the optional spectrum,
the averaging (count, running-sum) pair and a failure indicator; a fresh
Reading carries empty/zero defaults. SPIDevice.acquire_data then assigns the
fields it uses. -/
structure Reading where
  integration_time_ms : Int
  laser_power_perc : Int
  laser_power_mW : Int
  laser_enabled : Bool
  spectrum : Option (List Nat)
  failure : Option String
  session_count : Nat
  sum_count : Nat
  summed_spectra : Option (List Nat)
  deriving Repr, DecidableEq

/-- A freshly constructed Reading. -/
def Reading.init : Reading :=
  { integration_time_ms := 0, laser_power_perc := 0, laser_power_mW := 0,
    laser_enabled := false, spectrum := none, failure := none,
    session_count := 0, sum_count := 0, summed_spectra := none }

/-- Mutable session state of SPIDevice (the self fields the embedded methods
read or write). The disconnect attribute is the boolean set in init (the
disconnect method of the class is shadowed by it). settings.state and
settings.eeprom fields used by the code are inlined. eepromWriteBuffers holds
the buffers the external parser would render for write-back (spec section 6
collaborator contract). -/
structure DeviceState where
  disconnect : Bool
  acquiring : Bool
  integration_time_ms : Int
  scans_to_average : Int
  laser_power_perc : Int
  laser_power_mW : Int
  laser_enabled : Bool
  summed_spectra : Option (List Nat)
  sum_count : Nat
  session_reading_count : Nat
  failure_count : Nat
  eepromWriteBuffers : List (List Nat)
  active_pixels_horizontal : Nat
  deriving Repr, DecidableEq

/-- Big-endian assembly of one pixel from a 2-byte read:
(SPIBuf[0] << 8) + SPIBuf[1]. -/
def decodePixel (p : Nat × Nat) : Nat := (p.1 <<< 8) + p.2

/-- What the bus delivers to one call of Acquire: either the 2-byte pairs
clocked out while ready stays asserted, or a usb.USBError raised by a bus
primitive. -/
inductive AcquireOutcome where
  | pairs (ps : List (Nat × Nat))
  | busError
  deriving Repr, DecidableEq

/-- Return value of SPIDevice.Acquire: the Python False sentinel, or the
pixel list. -/
inductive AcqLow where
  | sentinelFalse
  | spectra (sp : List Nat)
  deriving Repr, DecidableEq

/-- Return value of SPIDevice.acquire_data: the Python False sentinel, or a
Reading. -/
inductive AcqResult where
  | sentinelFalse
  | reading (r : Reading)
  deriving Repr, DecidableEq

/-- SPIDevice.Acquire (lines 222-251): abort on disconnect; otherwise raise
the trigger, busy-wait for ready (no bus traffic while spinning), drop the
trigger, then read 2 bytes per pixel while ready stays asserted. On a bus
error the acquiring flag stays set because the normal exit is skipped. -/
def Acquire (st : DeviceState) (bus : AcquireOutcome) :
    DeviceState × List Effect × Except PyErr AcqLow :=
  if st.disconnect then (st, [], Except.ok AcqLow.sentinelFalse)
  else
    match bus with
    | AcquireOutcome.busError =>
        ({ st with acquiring := true }, [Effect.triggerSet true],
          Except.error PyErr.usbError)
    | AcquireOutcome.pairs ps =>
        ({ st with acquiring := false },
          Effect.triggerSet true :: Effect.triggerSet false ::
            ps.map (fun _ => Effect.readInto 2),
          Except.ok (AcqLow.spectra (ps.map decodePixel)))

/-- The elementwise summing loop of acquire_data (lines 139-140): one pass
over the accumulator adding reading.spectrum[i]; a spectrum shorter than the
accumulator leaves the tail untouched and raises IndexError (flag false). -/
def sumInto : List Nat → List Nat → List Nat × Bool
  | [], _ => ([], true)
  | s :: ss, [] => (s :: ss, false)
  | s :: ss, p :: ps =>
      let t := sumInto ss ps
      ((s + p) :: t.1, t.2)

/-- Common tail of acquire_data (lines 144-148): bump the session counter and
stamp session_count and sum_count onto the Reading. The running sum itself is
never copied onto the Reading. -/
def acquireFinish (st : DeviceState) (eff : List Effect) (r : Reading) :
    DeviceState × List Effect × Except PyErr AcqResult :=
  let st2 := { st with session_reading_count := st.session_reading_count + 1 }
  (st2, eff,
    Except.ok (AcqResult.reading
      { r with session_count := st2.session_reading_count, sum_count := st2.sum_count }))

/-- SPIDevice.acquire_data (lines 113-148). On usb.USBError the failure
counter is bumped and then the log f-string dereferences the nonexistent
self.device attribute, so AttributeError propagates out of the except block.
valueError below stands for the TypeError Python would raise when iterating a
None accumulator (unreachable under the accumulator invariant). -/
def acquire_data (st : DeviceState) (bus : AcquireOutcome) :
    DeviceState × List Effect × Except PyErr AcqResult :=
  if st.disconnect then (st, [], Except.ok AcqResult.sentinelFalse)
  else
    let averaging_enabled := st.scans_to_average > 1
    let r0 : Reading := { Reading.init with
      integration_time_ms := st.integration_time_ms,
      laser_power_perc := st.laser_power_perc,
      laser_power_mW := st.laser_power_mW,
      laser_enabled := st.laser_enabled }
    match Acquire st bus with
    | (st1, eff, Except.error e) =>
        if e = PyErr.usbError then
          ({ st1 with failure_count := st1.failure_count + 1 }, eff,
            Except.error PyErr.attributeError)
        else (st1, eff, Except.error e)
    | (st1, eff, Except.ok AcqLow.sentinelFalse) =>
        (st1, eff, Except.ok AcqResult.sentinelFalse)
    | (st1, eff, Except.ok (AcqLow.spectra sp)) =>
        let r1 := { r0 with spectrum := some sp }
        if averaging_enabled then
          if st1.sum_count = 0 then
            acquireFinish
              { st1 with summed_spectra := some sp, sum_count := st1.sum_count + 1 }
              eff r1
          else
            match st1.summed_spectra with
            | none => (st1, eff, Except.error PyErr.valueError)
            | some acc =>
                let t := sumInto acc sp
                if t.2 then
                  acquireFinish
                    { st1 with summed_spectra := some t.1, sum_count := st1.sum_count + 1 }
                    eff r1
                else
                  ({ st1 with summed_spectra := some t.1 }, eff,
                    Except.error PyErr.indexError)
        else acquireFinish st1 eff r1

/-- A run of consecutive acquisitions: thread the session state through
acquire_data once per bus delivery and keep the last Reading produced. -/
def acquireSeq : DeviceState → List (List (Nat × Nat)) → DeviceState × Option Reading
  | st, [] => (st, none)
  | st, ps :: rest =>
      match acquire_data st (AcquireOutcome.pairs ps) with
      | (st1, _, res) =>
          match acquireSeq st1 rest with
          | (st2, some r2) => (st2, some r2)
          | (st2, none) =>
              match res with
              | Except.ok (AcqResult.reading r) => (st2, some r)
              | _ => (st2, none)

/-- Elementwise sum of a family of spectra (the first spectrum seeds the
accumulator, later ones are added pointwise). -/
def elementSum : List (List Nat) → List Nat
  | [] => []
  | s :: rest => rest.foldl (fun a b => List.zipWith (fun u v => u + v) a b) s

/- ----------------------------------------------------------------
   C8 — acquisition entered with disconnect already set
   ---------------------------------------------------------------- -/

/-- C8. An acquisition started while the disconnect flag is already set
returns the False failure sentinel immediately: acquire_data (guard at lines
115-117, mirrored by the guard in Acquire at lines 223-224) produces no bus
or trigger effect and leaves the whole session state, in particular
session_reading_count, unchanged. -/
theorem acquire_disconnected_noop (st : DeviceState) (bus : AcquireOutcome)
    (h : st.disconnect = true) :
    acquire_data st bus = (st, [], Except.ok AcqResult.sentinelFalse) := by
  simp [acquire_data, h]

/-- Convenient concrete session state for witnesses. -/
def baseState : DeviceState :=
  { disconnect := false, acquiring := false, integration_time_ms := 10,
    scans_to_average := 1, laser_power_perc := 0, laser_power_mW := 0,
    laser_enabled := false, summed_spectra := none, sum_count := 0,
    session_reading_count := 0, failure_count := 0, eepromWriteBuffers := [],
    active_pixels_horizontal := 1952 }

/-- C8 witness: the theorem applied to a concrete disconnected state and a
concrete bus delivery. -/
theorem acquire_disconnected_noop_witness :
    acquire_data { baseState with disconnect := true } (AcquireOutcome.pairs [(1, 2)]) =
      ({ baseState with disconnect := true }, [], Except.ok AcqResult.sentinelFalse) :=
  acquire_disconnected_noop { baseState with disconnect := true }
    (AcquireOutcome.pairs [(1, 2)]) rfl

/- ----------------------------------------------------------------
   C4 — averaging accumulator over K consecutive acquisitions
   ---------------------------------------------------------------- -/

/-- The summing loop is an exact elementwise zipWith addition whenever the
incoming spectrum is at least as long as the accumulator. -/
theorem sumInto_eq_zipWith :
    ∀ (a b : List Nat), a.length ≤ b.length →
      sumInto a b = (List.zipWith (fun u v => u + v) a b, true) := by
  intro a
  induction a with
  | nil => intro b _; cases b <;> rfl
  | cons s ss ih =>
      intro b hb
      cases b with
      | nil => simp at hb
      | cons p ps =>
          simp only [List.length_cons, Nat.succ_le_succ_iff] at hb
          simp [sumInto, ih ps hb]

/-- One averaging acquisition when the accumulator is empty (sum_count 0):
the decoded spectrum is copied into the accumulator. -/
theorem acquire_data_avg_first (st : DeviceState) (ps : List (Nat × Nat))
    (hd : st.disconnect = false) (havg : 1 < st.scans_to_average)
    (hc : st.sum_count = 0) :
    acquire_data st (AcquireOutcome.pairs ps) =
      ({ st with
          acquiring := false,
          summed_spectra := some (ps.map decodePixel),
          sum_count := st.sum_count + 1,
          session_reading_count := st.session_reading_count + 1 },
        Effect.triggerSet true :: Effect.triggerSet false ::
          ps.map (fun _ => Effect.readInto 2),
        Except.ok (AcqResult.reading
          { integration_time_ms := st.integration_time_ms,
            laser_power_perc := st.laser_power_perc,
            laser_power_mW := st.laser_power_mW,
            laser_enabled := st.laser_enabled,
            spectrum := some (ps.map decodePixel), failure := none,
            session_count := st.session_reading_count + 1,
            sum_count := st.sum_count + 1, summed_spectra := none })) := by
  simp [acquire_data, Acquire, acquireFinish, hd, hc, havg, Reading.init]

/-- One averaging acquisition on a nonempty accumulator of matching length:
the decoded spectrum is added elementwise. -/
theorem acquire_data_avg_step (st : DeviceState) (ps : List (Nat × Nat))
    (acc : List Nat)
    (hd : st.disconnect = false) (havg : 1 < st.scans_to_average)
    (hacc : st.summed_spectra = some acc) (hlen : acc.length ≤ ps.length)
    (hc : st.sum_count ≠ 0) :
    acquire_data st (AcquireOutcome.pairs ps) =
      ({ st with
          acquiring := false,
          summed_spectra := some (List.zipWith (fun u v => u + v) acc (ps.map decodePixel)),
          sum_count := st.sum_count + 1,
          session_reading_count := st.session_reading_count + 1 },
        Effect.triggerSet true :: Effect.triggerSet false ::
          ps.map (fun _ => Effect.readInto 2),
        Except.ok (AcqResult.reading
          { integration_time_ms := st.integration_time_ms,
            laser_power_perc := st.laser_power_perc,
            laser_power_mW := st.laser_power_mW,
            laser_enabled := st.laser_enabled,
            spectrum := some (ps.map decodePixel), failure := none,
            session_count := st.session_reading_count + 1,
            sum_count := st.sum_count + 1, summed_spectra := none })) := by
  have hlen2 : acc.length ≤ (ps.map decodePixel).length := by
    simpa using hlen
  simp [acquire_data, Acquire, acquireFinish, hd, hc, havg, hacc, Reading.init,
    sumInto_eq_zipWith acc (ps.map decodePixel) hlen2]


/-- Invariant of the averaging loop once the accumulator is seeded: each
further successful acquisition adds the decoded spectrum elementwise and
bumps the count, and the last Reading is stamped with the final count. -/
theorem acquireSeq_avg_invariant (L : Nat) :
    ∀ (buses : List (List (Nat × Nat))) (st : DeviceState) (acc : List Nat),
      st.disconnect = false → 1 < st.scans_to_average →
      st.summed_spectra = some acc → acc.length = L → st.sum_count ≠ 0 →
      (∀ ps ∈ buses, ps.length = L) →
      (acquireSeq st buses).1.sum_count = st.sum_count + buses.length ∧
      (acquireSeq st buses).1.summed_spectra =
        some (buses.foldl
          (fun a ps => List.zipWith (fun u v => u + v) a (ps.map decodePixel)) acc) ∧
      (∀ r, (acquireSeq st buses).2 = some r →
        r.sum_count = st.sum_count + buses.length) ∧
      (buses ≠ [] → (acquireSeq st buses).2.isSome) := by
  intro buses
  induction buses with
  | nil =>
      intro st acc hd havg hacc hlen hc hL
      refine ⟨by simp [acquireSeq], by simp [acquireSeq, hacc], ?_, ?_⟩
      · intro r hr
        simp [acquireSeq] at hr
      · intro h
        exact absurd rfl h
  | cons ps rest ih =>
      intro st acc hd havg hacc hlen hc hL
      have hps : ps.length = L := hL ps (List.mem_cons_self ps rest)
      have hle : acc.length ≤ ps.length := by rw [hlen, hps]
      have hstep := acquire_data_avg_step st ps acc hd havg hacc hle hc
      set newAcc := List.zipWith (fun u v => u + v) acc (ps.map decodePixel) with hnewAcc
      set st1 : DeviceState :=
        { st with
          acquiring := false,
          summed_spectra := some newAcc,
          sum_count := st.sum_count + 1,
          session_reading_count := st.session_reading_count + 1 } with hst1
      set rr : Reading :=
        { integration_time_ms := st.integration_time_ms,
          laser_power_perc := st.laser_power_perc,
          laser_power_mW := st.laser_power_mW,
          laser_enabled := st.laser_enabled,
          spectrum := some (ps.map decodePixel), failure := none,
          session_count := st.session_reading_count + 1,
          sum_count := st.sum_count + 1, summed_spectra := none } with hrr
      have hlennew : newAcc.length = L := by
        simp [hnewAcc, List.length_zipWith, hlen, hps]
      have hih := ih st1 newAcc (by simp [hst1, hd]) (by simp [hst1]; exact havg)
        (by simp [hst1]) hlennew (by simp [hst1])
        (fun q hq => hL q (List.mem_cons_of_mem _ hq))
      rcases hih with ⟨ihA, ihB, ihC, ihD⟩
      have hs1count : st1.sum_count = st.sum_count + 1 := by simp [hst1]
      rcases hopt : (acquireSeq st1 rest) with ⟨st2, opt⟩
      rw [hopt] at ihA ihB ihC ihD
      have hunfold : acquireSeq st (ps :: rest) =
          match acquireSeq st1 rest with
          | (st2a, some r2) => (st2a, some r2)
          | (st2a, none) => (st2a, some rr) := by
        simp only [acquireSeq, hstep]
      rw [hopt] at hunfold
      cases opt with
      | some r2 =>
          have hres : acquireSeq st (ps :: rest) = (st2, some r2) := hunfold
          refine ⟨?_, ?_, ?_, ?_⟩
          · rw [hres]
            simp only at ihA
            rw [ihA]
            simp only [List.length_cons]
            omega
          · rw [hres]
            simp only at ihB
            rw [ihB, List.foldl_cons, hnewAcc]
          · intro r hr
            rw [hres] at hr
            have hr2 : r2 = r := by simpa using hr
            have hC := ihC r2 rfl
            rw [← hr2, hC]
            simp only [List.length_cons, hs1count]
            omega
          · intro _
            rw [hres]
            simp
      | none =>
          have hres : acquireSeq st (ps :: rest) = (st2, some rr) := hunfold
          have hrest_nil : rest = [] := by
            by_contra hne
            have := ihD hne
            simp at this
          subst hrest_nil
          refine ⟨?_, ?_, ?_, ?_⟩
          · rw [hres]
            simp only at ihA
            rw [ihA]
            simp
          · rw [hres]
            simp only at ihB
            rw [ihB, List.foldl_cons, hnewAcc]
          · intro r hr
            rw [hres] at hr
            have hr2 : rr = r := by simpa using hr
            rw [← hr2, hrr]
            simp
          · intro _
            rw [hres]
            simp

/-- elementSum of decoded spectra as a fold over the raw byte-pair batches. -/
theorem elementSum_map_decode (b0 : List (Nat × Nat)) (rest : List (List (Nat × Nat))) :
    elementSum ((b0 :: rest).map (fun ps => ps.map decodePixel)) =
      rest.foldl (fun a ps => List.zipWith (fun u v => u + v) a (ps.map decodePixel))
        (b0.map decodePixel) := by
  simp [elementSum, List.foldl_map]

/-- C4 (amended). With averaging window K > 1 and K consecutive successful
same-length acquisitions from an empty accumulator, the session accumulator
ends as the elementwise sum of the K decoded spectra and the count as K, and
the count K is stamped onto the last Reading. (The code stamps only the
count; the running sum stays in the session accumulator summed_spectra and is
not copied onto the Reading.) Pixel values are below 2^16, so the Python
float accumulator is exact and its Nat model is faithful. -/
theorem averaging_accumulator_sum (st : DeviceState) (K L : Nat)
    (buses : List (List (Nat × Nat)))
    (hd : st.disconnect = false)
    (hc : st.sum_count = 0)
    (havg : st.scans_to_average = (K : Int))
    (hK : 1 < K)
    (hlen : buses.length = K)
    (hL : ∀ ps ∈ buses, ps.length = L) :
    ∃ r, (acquireSeq st buses).2 = some r ∧
      (acquireSeq st buses).1.summed_spectra =
        some (elementSum (buses.map (fun ps => ps.map decodePixel))) ∧
      (acquireSeq st buses).1.sum_count = K ∧
      r.sum_count = K := by
  have havg2 : 1 < st.scans_to_average := by
    rw [havg]
    exact_mod_cast hK
  match buses, hlen, hL with
  | [], hlen, hL =>
      simp at hlen
      omega
  | b0 :: rest, hlen, hL =>
      have hb0 : b0.length = L := hL b0 (List.mem_cons_self b0 rest)
      have hstep := acquire_data_avg_first st b0 hd havg2 hc
      set dec0 := b0.map decodePixel with hdec0
      set st1 : DeviceState :=
        { st with
          acquiring := false,
          summed_spectra := some dec0,
          sum_count := st.sum_count + 1,
          session_reading_count := st.session_reading_count + 1 } with hst1
      set rr : Reading :=
        { integration_time_ms := st.integration_time_ms,
          laser_power_perc := st.laser_power_perc,
          laser_power_mW := st.laser_power_mW,
          laser_enabled := st.laser_enabled,
          spectrum := some dec0, failure := none,
          session_count := st.session_reading_count + 1,
          sum_count := st.sum_count + 1, summed_spectra := none } with hrr
      have hdlen : dec0.length = L := by simp [hdec0, hb0]
      have hinv := acquireSeq_avg_invariant L rest st1 dec0
        (by simp [hst1, hd]) (by simp [hst1]; exact havg2)
        (by simp [hst1]) hdlen (by simp [hst1])
        (fun q hq => hL q (List.mem_cons_of_mem _ hq))
      rcases hinv with ⟨invA, invB, invC, invD⟩
      have hs1count : st1.sum_count = st.sum_count + 1 := by simp [hst1]
      rcases hopt : (acquireSeq st1 rest) with ⟨st2, opt⟩
      rw [hopt] at invA invB invC invD
      have hunfold : acquireSeq st (b0 :: rest) =
          match acquireSeq st1 rest with
          | (st2a, some r2) => (st2a, some r2)
          | (st2a, none) => (st2a, some rr) := by
        simp only [acquireSeq, hstep]
      rw [hopt] at hunfold
      cases opt with
      | some r2 =>
          have hres : acquireSeq st (b0 :: rest) = (st2, some r2) := hunfold
          refine ⟨r2, by rw [hres], ?_, ?_, ?_⟩
          · rw [hres]
            simp only at invB
            rw [invB, elementSum_map_decode, hdec0]
          · rw [hres]
            simp only at invA
            rw [invA]
            simp only [List.length_cons] at hlen
            simp only [hs1count, hc]
            omega
          · have := invC r2 rfl
            rw [this]
            simp only [List.length_cons] at hlen
            simp only [hs1count, hc]
            omega
      | none =>
          have hrest_nil : rest = [] := by
            by_contra hne
            have := invD hne
            simp at this
          subst hrest_nil
          simp only [List.length_cons, List.length_nil] at hlen
          omega

/-- Concrete session state with an averaging window of two scans. -/
def c4State : DeviceState := { baseState with scans_to_average := 2 }

/-- C4 counterexample. After two averaging acquisitions of the decoded
spectra [1,2] and [3,4], the session accumulator holds the elementwise sum
[4,6] and the count 2 — but the last Reading carries only the count: its
spectrum field holds the raw last spectrum [3,4] and its (spec-modelled)
running-sum slot stays none, so the running sum is not stamped onto the
Reading as the claim states. -/
theorem averaging_sum_not_stamped :
    (acquireSeq c4State [[(0, 1), (0, 2)], [(0, 3), (0, 4)]]).1.summed_spectra =
      some [4, 6] ∧
    (acquireSeq c4State [[(0, 1), (0, 2)], [(0, 3), (0, 4)]]).2.map
        (fun r => (r.sum_count, r.summed_spectra, r.spectrum)) =
      some (2, none, some [3, 4]) := by
  constructor
  · rfl
  · rfl

/-- C4 witness: the amended theorem applied to the concrete two-scan run. -/
theorem averaging_accumulator_sum_witness :
    (acquireSeq c4State [[(0, 1), (0, 2)], [(0, 3), (0, 4)]]).1.summed_spectra =
      some (elementSum [[1, 2], [3, 4]]) ∧
    (acquireSeq c4State [[(0, 1), (0, 2)], [(0, 3), (0, 4)]]).1.sum_count = 2 := by
  obtain ⟨r, hsome, hsum, hcount, hr⟩ :=
    averaging_accumulator_sum c4State 2 2 [[(0, 1), (0, 2)], [(0, 3), (0, 4)]]
      rfl rfl rfl (by decide) rfl (by decide)
  refine ⟨?_, hcount⟩
  rw [hsum]
  rfl

/- ----------------------------------------------------------------
   SPIDevice.EEPROMWritePage (lines 195-213) — C3 and C7
   ---------------------------------------------------------------- -/

/-- Body of the payload copy loop: buf[pos] = v for successive positions.
none models the ValueError a Python bytearray raises for a non-byte value. -/
def setBytesFrom : List Nat → Nat → List Nat → Option (List Nat)
  | buf, _, [] => some buf
  | buf, pos, v :: vs =>
      if v < 256 then setBytesFrom (buf.set pos v) (pos + 1) vs else none

/-- The copy loop `for x in range(0, 64): EEPROMWrCmd[x+4] = write_array[x]`
of EEPROMWritePage: a payload shorter than 64 hits IndexError at
x = len(write_array); a non-byte value hits ValueError. Either exception is
re-raised by the except block before any bus write. -/
def setPayload (buf : List Nat) (write_array : List Nat) : Option (List Nat) :=
  if write_array.length < 64 then none
  else setBytesFrom buf 4 (write_array.take 64)

/-- SPIDevice.EEPROMWritePage (lines 195-213). The slice assignment
EEPROMWrCmd[0:3] = [0x3C,0x00,0x41,0xB1] replaces 3 cells by 4 values and so
grows bytearray(70) to 71 bytes; SPI.write(EEPROMWrCmd, 0, 70) then transmits
only the first 70 bytes. The commit frame uses opcode 0xB0 with address byte
0x80+page, followed by a 100 ms settle. On a copy-loop exception nothing is
transmitted. -/
def EEPROMWritePage (page : Nat) (write_array : List Nat) :
    List Effect × Except PyErr Unit :=
  let buf0 := List.replicate 70 0
  let buf1 := [0x3C, 0x00, 0x41, 0xB1] ++ buf0.drop 3
  match setPayload buf1 write_array with
  | none => ([], Except.error PyErr.indexError)
  | some buf2 =>
      let buf3 := (buf2.set 68 0xFF).set 69 0x3E
      ([Effect.write (buf3.take 70),
        Effect.write [0x3C, 0x00, 0x02, 0xB0, 0x80 + page, 0xFF, 0x3E],
        Effect.sleepMs 100], Except.ok ())

/-- The copy loop writes the byte sequence vs into buf starting at pos. -/
theorem setBytesFrom_spec :
    ∀ (vs buf : List Nat) (pos : Nat),
      (∀ v ∈ vs, v < 256) → pos + vs.length ≤ buf.length →
      setBytesFrom buf pos vs =
        some (buf.take pos ++ vs ++ buf.drop (pos + vs.length)) := by
  intro vs
  induction vs with
  | nil =>
      intro buf pos _ _
      simp only [setBytesFrom, List.length_nil, Nat.add_zero, List.nil_append,
        List.append_nil]
      rw [List.take_append_drop]
  | cons v vs ih =>
      intro buf pos hv hlen
      have hv0 : v < 256 := hv v (List.mem_cons_self v vs)
      have hposlt : pos < buf.length := by
        simp only [List.length_cons] at hlen
        omega
      have hlen2 : (pos + 1) + vs.length ≤ (buf.set pos v).length := by
        simp only [List.length_set]
        simp only [List.length_cons] at hlen
        omega
      simp only [setBytesFrom, if_pos hv0]
      rw [ih (buf.set pos v) (pos + 1) (fun w hw => hv w (List.mem_cons_of_mem _ hw)) hlen2]
      rw [List.set_eq_take_cons_drop v hposlt]
      have hA : (buf.take pos).length = pos := by
        simp [List.length_take]
        omega
      have h1 : (buf.take pos ++ v :: buf.drop (pos + 1)).take (pos + 1) =
          buf.take pos ++ [v] := by
        have he : pos + 1 = (buf.take pos).length + 1 := by rw [hA]
        rw [he, List.take_append 1]
        rfl
      have h2 : (buf.take pos ++ v :: buf.drop (pos + 1)).drop (pos + 1 + vs.length) =
          buf.drop (pos + (vs.length + 1)) := by
        have he : pos + 1 + vs.length = (buf.take pos).length + (1 + vs.length) := by
          rw [hA]
          omega
        rw [he, List.drop_append (1 + vs.length)]
        have he2 : 1 + vs.length = vs.length + 1 := by omega
        rw [he2, List.drop_succ_cons, List.drop_drop]
        congr 1
        omega
      rw [h1, h2]
      simp only [List.length_cons, List.append_assoc, List.singleton_append]

/-- C3. For every page index and every payload of at least 64 byte values,
EEPROMWritePage transmits exactly one 70-byte frame — header
[0x3C,0x00,0x41,0xB1], the first 64 payload bytes at offsets 4..67, trailer
[0xFF,0x3E] at offsets 68..69 — then the 7-byte page-commit frame with opcode
0xB0 and address byte 0x80+page, then settles 100 ms, in that order and with
nothing else on the bus. -/
theorem eeprom_write_page_frames (page : Nat) (wa : List Nat)
    (hlen : 64 ≤ wa.length) (hbytes : ∀ v ∈ wa.take 64, v < 256) :
    EEPROMWritePage page wa =
      ([Effect.write ([0x3C, 0x00, 0x41, 0xB1] ++ wa.take 64 ++ [0xFF, 0x3E]),
        Effect.write [0x3C, 0x00, 0x02, 0xB0, 0x80 + page, 0xFF, 0x3E],
        Effect.sleepMs 100], Except.ok ()) ∧
    ([0x3C, 0x00, 0x41, 0xB1] ++ wa.take 64 ++ [0xFF, 0x3E]).length = 70 := by
  have htake : (wa.take 64).length = 64 := by
    simp [List.length_take]
    omega
  have hsp : setPayload ([0x3C, 0x00, 0x41, 0xB1] ++ (List.replicate 70 0).drop 3) wa =
      some (([0x3C, 0x00, 0x41, 0xB1] ++ wa.take 64) ++ [0, 0, 0]) := by
    rw [setPayload, if_neg (by omega)]
    rw [setBytesFrom_spec (wa.take 64)
      ([0x3C, 0x00, 0x41, 0xB1] ++ (List.replicate 70 0).drop 3) 4 hbytes
      (by rw [htake]; decide)]
    rw [htake]
    have e1 : (([0x3C, 0x00, 0x41, 0xB1] ++ (List.replicate 70 0).drop 3 :
        List Nat)).take 4 = [0x3C, 0x00, 0x41, 0xB1] := rfl
    have e2 : (([0x3C, 0x00, 0x41, 0xB1] ++ (List.replicate 70 0).drop 3 :
        List Nat)).drop (4 + 64) = [0, 0, 0] := rfl
    rw [e1, e2, List.append_assoc]
  have hA2 : (([0x3C, 0x00, 0x41, 0xB1] : List Nat) ++ wa.take 64).length = 68 := by
    simp [htake]
  have hset1 : ((([0x3C, 0x00, 0x41, 0xB1] : List Nat) ++ wa.take 64) ++ [0, 0, 0]).set 68 0xFF =
      (([0x3C, 0x00, 0x41, 0xB1] : List Nat) ++ wa.take 64) ++ [0xFF, 0, 0] := by
    rw [List.set_append, hA2]
    norm_num
  have hset2 : ((([0x3C, 0x00, 0x41, 0xB1] : List Nat) ++ wa.take 64) ++ [0xFF, 0, 0]).set 69 0x3E =
      (([0x3C, 0x00, 0x41, 0xB1] : List Nat) ++ wa.take 64) ++ [0xFF, 0x3E, 0] := by
    rw [List.set_append, hA2]
    norm_num
  have htk70 : ((([0x3C, 0x00, 0x41, 0xB1] : List Nat) ++ wa.take 64) ++ [0xFF, 0x3E, 0]).take 70 =
      (([0x3C, 0x00, 0x41, 0xB1] : List Nat) ++ wa.take 64) ++ [0xFF, 0x3E] := by
    have he : (70 : Nat) = (([0x3C, 0x00, 0x41, 0xB1] : List Nat) ++ wa.take 64).length + 2 := by
      rw [hA2]
    rw [he, List.take_append 2]
    rfl
  constructor
  · rw [EEPROMWritePage]
    rw [hsp]
    dsimp only
    rw [hset1, hset2, htk70, List.append_assoc]
  · simp [htake]

/-- C3 witness: page 3 with a concrete 64-byte payload. -/
theorem eeprom_write_page_frames_witness :
    EEPROMWritePage 3 (List.replicate 64 7) =
      ([Effect.write ([0x3C, 0x00, 0x41, 0xB1] ++ (List.replicate 64 7).take 64 ++ [0xFF, 0x3E]),
        Effect.write [0x3C, 0x00, 0x02, 0xB0, 0x80 + 3, 0xFF, 0x3E],
        Effect.sleepMs 100], Except.ok ()) ∧
    ([0x3C, 0x00, 0x41, 0xB1] ++ (List.replicate 64 7).take 64 ++ [0xFF, 0x3E]).length = 70 :=
  eeprom_write_page_frames 3 (List.replicate 64 7) (by decide) (by decide)

/-- C7. For every page index and every payload shorter than 64 bytes,
EEPROMWritePage raises before the frame assembly completes: the effect trace
is empty, so no byte of the 70-byte frame and no commit frame reach the bus.
(The concrete exception class is IndexError re-raised by the except block;
the spec names this condition PageWriteError.) -/
theorem eeprom_write_short_payload (page : Nat) (wa : List Nat)
    (hlen : wa.length < 64) :
    EEPROMWritePage page wa = ([], Except.error PyErr.indexError) := by
  rw [EEPROMWritePage, setPayload, if_pos hlen]

/-- C7 witness: a 3-byte payload on page 0 transmits nothing and errors. -/
theorem eeprom_write_short_payload_witness :
    EEPROMWritePage 0 [1, 2, 3] = ([], Except.error PyErr.indexError) :=
  eeprom_write_short_payload 0 [1, 2, 3] (by decide)

/- ----------------------------------------------------------------
   SPIDevice setting dispatch (lines 174-220, 253-260) — C10
   ---------------------------------------------------------------- -/

/-- SPIDevice.INTEGRATION_ADDRESS. -/
def INTEGRATION_ADDRESS : Nat := 0x11

/-- SPIDevice.SPIWrite (lines 181-193): split the value into low/high bytes
(txData[1] = value >> 8 assigned first; a value outside 0..65535 makes that
assignment raise ValueError), build the 8-byte write frame with the MSB-set
address, transmit, settle 10 ms. -/
def SPIWrite (value : Int) (address : Nat) : List Effect × Except PyErr Unit :=
  let hi := Int.fdiv value 256
  let lo := value - hi * 256
  if hi < 0 ∨ 256 ≤ hi then ([], Except.error PyErr.valueError)
  else
    ([Effect.write [0x3C, 0x00, 0x03, address + 0x80, lo.toNat, hi.toNat, 0xFF, 0x3E],
      Effect.sleepMs 10], Except.ok ())

/-- SPIDevice.set_integration_time_ms (lines 174-179): busy-wait while the
acquiring flag is up (in the single-threaded model an up flag means the wait
never ends), then write the integration register and update session state. -/
def set_integration_time_ms (st : DeviceState) (value : Int) :
    DeviceState × List Effect × Except PyErr Unit :=
  if st.acquiring then (st, [], Except.error PyErr.unboundedWait)
  else
    match SPIWrite value INTEGRATION_ADDRESS with
    | (eff, Except.error e) => (st, eff, Except.error e)
    | (eff, Except.ok _) => ({ st with integration_time_ms := value }, eff, Except.ok ())

/-- Modelled from the spec: EEPROM.MAX_PAGES lives in the external EEPROM
module; the spec (section 8 scenario) fixes eight pages. -/
def EEPROM_MAX_PAGES : Nat := 8

/-- The write-back loop of SPIDevice.write_eeprom (lines 158-159):
EEPROMWritePage(page, write_buffers[page]) for each page index, stopping at
the first exception (which propagates; write_buffers[page] itself raises
IndexError when missing). -/
def writePagesFrom (bufs : List (List Nat)) : List Nat → List Effect × Except PyErr Unit
  | [] => ([], Except.ok ())
  | p :: rest =>
      match bufs.get? p with
      | none => ([], Except.error PyErr.indexError)
      | some wa =>
          match EEPROMWritePage p wa with
          | (eff, Except.error e) => (eff, Except.error e)
          | (eff, Except.ok _) =>
              match writePagesFrom bufs rest with
              | (eff2, res) => (eff ++ eff2, res)

/-- SPIDevice.write_eeprom (lines 150-162). generate_write_buffers is the
external parser collaborator (spec section 6); it is modelled as yielding the
eepromWriteBuffers of the session. -/
def write_eeprom (st : DeviceState) : DeviceState × List Effect × Except PyErr Bool :=
  match writePagesFrom st.eepromWriteBuffers (List.range EEPROM_MAX_PAGES) with
  | (eff, Except.error e) => (st, eff, Except.error e)
  | (eff, Except.ok _) => (st, eff, Except.ok true)

/-- SPIDevice.change_setting (lines 215-220) over the closed dispatch table
built by init_lambdas (lines 253-260): write_eeprom, replace_eeprom and
integration_time_ms; any other name is skipped and True is returned. -/
def change_setting (st : DeviceState) (setting : String) (value : Int) :
    DeviceState × List Effect × Except PyErr Bool :=
  if setting = "write_eeprom" then
    match write_eeprom st with
    | (st1, eff, Except.error e) => (st1, eff, Except.error e)
    | (st1, eff, Except.ok _) => (st1, eff, Except.ok true)
  else if setting = "replace_eeprom" then
    match write_eeprom st with
    | (st1, eff, Except.error e) => (st1, eff, Except.error e)
    | (st1, eff, Except.ok _) => (st1, eff, Except.ok true)
  else if setting = "integration_time_ms" then
    match set_integration_time_ms st value with
    | (st1, eff, Except.error e) => (st1, eff, Except.error e)
    | (st1, eff, Except.ok _) => (st1, eff, Except.ok true)
  else (st, [], Except.ok true)

/-- C10. For every setting name outside the closed dispatch table and every
value, change_setting leaves the session state untouched, performs no bus
effect, raises nothing and returns True — indistinguishable from a
successfully applied setting. -/
theorem change_setting_unknown_noop (st : DeviceState) (setting : String) (value : Int)
    (h1 : setting ≠ "integration_time_ms") (h2 : setting ≠ "write_eeprom")
    (h3 : setting ≠ "replace_eeprom") :
    change_setting st setting value = (st, [], Except.ok true) := by
  rw [change_setting, if_neg h2, if_neg h3, if_neg h1]

/-- C10 witness: the unknown setting laser_enabled is silently accepted. -/
theorem change_setting_unknown_noop_witness :
    change_setting baseState "laser_enabled" 1 = (baseState, [], Except.ok true) :=
  change_setting_unknown_noop baseState "laser_enabled" 1
    (by decide) (by decide) (by decide)

/- ----------------------------------------------------------------
   SPIDevice.connect and EEPROMReadPage (lines 94-107, 164-172) — C6, C9
   ---------------------------------------------------------------- -/

/-- SPIDevice.EEPROMReadPage (lines 164-172): page-select frame (opcode 0xB0,
address 0x40+page), 10 ms settle, then the read-request frame (opcode 0x31)
transmitted while filling the 74-byte response buffer. The oracle pages gives
the buffer content the bus delivers for each page. -/
def EEPROMReadPage (pages : Nat → List Nat) (page : Nat) : List Effect × List Nat :=
  ([Effect.write [0x3C, 0x00, 0x02, 0xB0, 0x40 + page, 0xFF, 0x3E],
    Effect.sleepMs 10,
    Effect.writeReadInto [0x3C, 0x00, 0x01, 0x31, 0xFF, 0x3E] 74],
   pages page)

/-- The pre-read wait loop of connect (lines 98-99):
`while self.ready.value: self.SPI.readinto(response, 0, 2)` — each poll that
sees ready asserted drains 2 bytes; the loop exits on sampling ready
de-asserted. The argument is the number of asserted polls the line delivers
before going low. -/
def drainEffects : Nat → List Effect
  | 0 => [Effect.readySample false]
  | n + 1 => Effect.readySample true :: Effect.readInto 2 :: drainEffects n

/-- Observable outcome of connect. -/
structure ConnectResult where
  effects : List Effect
  parserCalls : List (List (List Nat))
  returned : Bool
  deriving Repr, DecidableEq

/-- SPIDevice.connect (lines 94-107): for each page index in order, run the
ready drain loop, read the page; then reduce every page to bytes [9,74),
hand the ordered list to the external parser in one call, and apply the two
post-parse overrides (active_pixels_horizontal 1952, integration_time_ms 10),
returning True. -/
def connect (pages : Nat → List Nat) (drains : Nat → Nat) : ConnectResult :=
  let step := fun (acc : List Effect × List (List Nat)) (i : Nat) =>
    let pr := EEPROMReadPage pages i
    (acc.1 ++ drainEffects (drains i) ++ pr.1, acc.2 ++ [pr.2])
  let r := (List.range EEPROM_MAX_PAGES).foldl step ([], [])
  let sliced := r.2.map (fun page => (page.take 74).drop 9)
  { effects := r.1 ++
      [Effect.parseCall sliced, Effect.setActivePixels 1952,
       Effect.setIntegrationDefault 10],
    parserCalls := [sliced],
    returned := true }

/-- The page buffers handed to the parser: bytes [9,74) of each page. -/
def connectSlices (pages : Nat → List Nat) : List (List Nat) :=
  (List.range EEPROM_MAX_PAGES).map (fun i => ((pages i).take 74).drop 9)

/-- Per-page effect segment of connect: drain polls, then the page frames. -/
def pageCycleFx (pages : Nat → List Nat) (drains : Nat → Nat) (i : Nat) : List Effect :=
  drainEffects (drains i) ++ (EEPROMReadPage pages i).1

/-- Closed form of the connect trace. -/
theorem connect_eq (pages : Nat → List Nat) (drains : Nat → Nat) :
    connect pages drains =
      { effects := ((List.range EEPROM_MAX_PAGES).flatMap (pageCycleFx pages drains)) ++
          [Effect.parseCall (connectSlices pages), Effect.setActivePixels 1952,
           Effect.setIntegrationDefault 10],
        parserCalls := [connectSlices pages],
        returned := true } := by
  have hr : List.range EEPROM_MAX_PAGES = [0, 1, 2, 3, 4, 5, 6, 7] := rfl
  simp [connect, connectSlices, pageCycleFx, hr, EEPROMReadPage, List.flatMap]

/-- C6. connect reads every EEPROM page in increasing index order, invokes
the external parser exactly once with the full ordered sequence of pages,
each reduced to its 65-byte slice [9,74), and only after the parse call
applies exactly the two overrides — sensor pixel count 1952 and default
integration time 10 — returning True. -/
theorem connect_parser_once (pages : Nat → List Nat) (drains : Nat → Nat)
    (h : ∀ i, (pages i).length = 74) :
    (connect pages drains).parserCalls = [connectSlices pages] ∧
    connectSlices pages =
      [((pages 0).take 74).drop 9, ((pages 1).take 74).drop 9,
       ((pages 2).take 74).drop 9, ((pages 3).take 74).drop 9,
       ((pages 4).take 74).drop 9, ((pages 5).take 74).drop 9,
       ((pages 6).take 74).drop 9, ((pages 7).take 74).drop 9] ∧
    (∀ b ∈ connectSlices pages, b.length = 65) ∧
    (connect pages drains).effects =
      ((List.range EEPROM_MAX_PAGES).flatMap (pageCycleFx pages drains)) ++
      [Effect.parseCall (connectSlices pages), Effect.setActivePixels 1952,
       Effect.setIntegrationDefault 10] ∧
    (connect pages drains).returned = true := by
  refine ⟨?_, ?_, ?_, ?_, ?_⟩
  · rw [connect_eq]
  · rfl
  · intro b hb
    have hr : List.range EEPROM_MAX_PAGES = [0, 1, 2, 3, 4, 5, 6, 7] := rfl
    simp only [connectSlices, hr, List.map_cons, List.map_nil, List.mem_cons,
      List.not_mem_nil, or_false] at hb
    rcases hb with rfl | rfl | rfl | rfl | rfl | rfl | rfl | rfl <;>
      simp [List.length_drop, List.length_take, h]
  · rw [connect_eq]
  · rw [connect_eq]

/-- Concrete page oracle for the C6 witness: eight pages of 74 bytes, page i
filled with the marker value i+1. -/
def pagesW : Nat → List Nat := fun i => List.replicate 74 (i + 1)

/-- Concrete drain counts for the C6 witness. -/
def drainsW : Nat → Nat := fun i => i

/-- C6 witness: connect on eight concrete 74-byte pages invokes the parser
exactly once with eight ordered 65-byte buffers. -/
theorem connect_parser_once_witness :
    (connect pagesW drainsW).parserCalls = [connectSlices pagesW] ∧
    (∀ b ∈ connectSlices pagesW, b.length = 65) := by
  have h := connect_parser_once pagesW drainsW (fun i => by simp [pagesW])
  exact ⟨h.1, h.2.2.1⟩

/-- C9 (amended). Before each page read, connect busy-waits on the ready
line: every poll that observes ready asserted drains 2 bytes and the loop
spins for any number n of such polls (no bound); the page-select and
read-request frames of page i are issued only immediately after a poll
observes ready DE-asserted. -/
theorem page_read_after_ready_low (pages : Nat → List Nat) (drains : Nat → Nat) (n : Nat) :
    (connect pages drains).effects =
      ((List.range EEPROM_MAX_PAGES).flatMap (fun i =>
        drainEffects (drains i) ++
        [Effect.write [0x3C, 0x00, 0x02, 0xB0, 0x40 + i, 0xFF, 0x3E],
         Effect.sleepMs 10,
         Effect.writeReadInto [0x3C, 0x00, 0x01, 0x31, 0xFF, 0x3E] 74])) ++
      [Effect.parseCall (connectSlices pages), Effect.setActivePixels 1952,
       Effect.setIntegrationDefault 10] ∧
    drainEffects n =
      (List.replicate n [Effect.readySample true, Effect.readInto 2]).flatten ++
        [Effect.readySample false] ∧
    (drainEffects n).getLast? = some (Effect.readySample false) := by
  refine ⟨?_, ?_, ?_⟩
  · rw [connect_eq]
    rfl
  · induction n with
    | zero => rfl
    | succ m ihm => simp [drainEffects, ihm, List.replicate_succ]
  · induction n with
    | zero => rfl
    | succ m ihm =>
        have hne : drainEffects m ≠ [] := by
          cases m <;> simp [drainEffects]
        simp only [drainEffects]
        rw [List.getLast?_cons_cons]
        rcases hm : drainEffects m with _ | ⟨e, es⟩
        · exact absurd hm hne
        · rw [List.getLast?_cons_cons, ← hm, ihm]

/-- Recogniser for a page-select frame (opcode 0xB0, address byte in
[0x40, 0x48)) on the effect trace. -/
def isSelectWrite : Effect → Bool
  | Effect.write bs =>
      decide (bs.length = 7 ∧ bs.take 4 = [0x3C, 0x00, 0x02, 0xB0] ∧
        0x40 ≤ bs.getD 4 0 ∧ bs.getD 4 0 < 0x48)
  | _ => false

/-- Formalisation of the claim as stated: every page-select frame is issued
at a moment when the last sampled ready value was asserted. -/
def selectsAfterAssertedReady (tr : List Effect) : Prop :=
  ∀ k, k < tr.length → isSelectWrite (tr.getD k (Effect.sleepMs 0)) = true →
    0 < k ∧ tr.getD (k - 1) (Effect.sleepMs 0) = Effect.readySample true

/-- Page oracle for the C9 counterexample. -/
def c9Pages : Nat → List Nat := fun _ => List.replicate 74 0

/-- Drain counts for the C9 counterexample: ready is never asserted. -/
def c9Drains : Nat → Nat := fun _ => 0

/-- C9 counterexample. With the ready line de-asserted throughout, connect
issues the page-0 select frame right after sampling ready = false, refuting
the claim that page frames are issued only once ready is currently asserted
(the code in fact waits for ready to go LOW, draining while it is high). -/
theorem page_read_ready_asserted_counterexample :
    ¬ selectsAfterAssertedReady (connect c9Pages c9Drains).effects := by
  intro h
  have hk := h 1 (by decide) (by decide)
  exact absurd hk.2 (by decide)

/- ----------------------------------------------------------------
   WrapperWorker.run steady-state cycle (lines 120-217) — C2, C5
   ---------------------------------------------------------------- -/

/-- A request on the worker-device protocol: a named operation with optional
positional arguments. -/
structure SpectrometerRequest where
  cmd : String
  args : List Int
  deriving Repr, DecidableEq

/-- The data slot of a response: Python None, False, True, or a Reading. -/
inductive RData where
  | noneD
  | falseD
  | trueD
  | readingD (r : Reading)
  deriving Repr, DecidableEq

/-- The response envelope of the worker-device protocol. -/
structure SpectrometerResponse where
  data : RData
  error_msg : String
  keep_alive : Bool
  poison_pill : Bool
  deriving Repr, DecidableEq

/-- A device request handler: one request against the session state yields a
new state and either a response or a propagating exception. -/
abbrev Handler :=
  DeviceState → SpectrometerRequest → DeviceState × Except PyErr SpectrometerResponse

/-- Modelled from the spec: SPIDevice.handle_requests is not among the
sources. Spec section 6 fixes the request protocol (named operations
`connect`, `acquire_data`, or a setting name plus one value) and the response
envelope carrying {data, error_msg, keep_alive, poison_pill}; the handler
dispatches acquire_data to the session and any other name to change_setting,
wrapping the plain result in a response. -/
def spiHandle (bus : AcquireOutcome) : Handler := fun st req =>
  if req.cmd = "acquire_data" then
    match acquire_data st bus with
    | (st1, _, Except.error e) => (st1, Except.error e)
    | (st1, _, Except.ok AcqResult.sentinelFalse) =>
        (st1, Except.ok
          { data := RData.falseD, error_msg := "", keep_alive := false, poison_pill := false })
    | (st1, _, Except.ok (AcqResult.reading r)) =>
        (st1, Except.ok
          { data := RData.readingD r, error_msg := "", keep_alive := false, poison_pill := false })
  else
    match change_setting st req.cmd (req.args.headD 0) with
    | (st1, _, Except.error e) => (st1, Except.error e)
    | (st1, _, Except.ok _) =>
        (st1, Except.ok
          { data := RData.trueD, error_msg := "", keep_alive := false, poison_pill := false })

/-- Outcome of the command-application phase of one cycle. -/
structure CmdPhase where
  st : DeviceState
  issued : List SpectrometerRequest
  poison : Bool
  err : Option PyErr
  deriving Repr, DecidableEq

/-- The command loop of WrapperWorker.run (lines 125-151): a None record only
sets the poison flag (no break); any other record is forwarded to the device
request handler as (setting, [value]); an exception from the handler is not
caught in run, so it aborts the cycle (and the thread). -/
def applyCommands (dev : Handler) : DeviceState → Bool → List QItem → CmdPhase
  | st, poison, [] => { st := st, issued := [], poison := poison, err := none }
  | st, _, none :: rest => applyCommands dev st true rest
  | st, poison, some co :: rest =>
      let req : SpectrometerRequest := { cmd := co.1, args := [co.2] }
      match dev st req with
      | (st1, Except.error e) =>
          { st := st1, issued := [req], poison := poison, err := some e }
      | (st1, Except.ok _) =>
          let t := applyCommands dev st1 poison rest
          { st := t.st, issued := req :: t.issued, poison := t.poison, err := t.err }

/-- The classification chain of WrapperWorker.run (lines 180-212): keep-alive
responses pass through; an error response is published (with a placeholder
Reading when data is None); a None result is dropped; a False result or a
failed Reading is tagged with the poison flag and published; a Reading with a
spectrum is published; a spectrum-less non-failure Reading is ignored. A True
data value would hit data.failure and raise AttributeError (unreachable on
acquire responses). -/
def classifyResponse (resp : SpectrometerResponse) :
    List SpectrometerResponse × Option PyErr :=
  if resp.keep_alive then ([resp], none)
  else if resp.error_msg ≠ "" then
    ([{ resp with
        data := if resp.data = RData.noneD then RData.readingD Reading.init else resp.data }],
      none)
  else if resp.data = RData.noneD then ([], none)
  else
    match resp.data with
    | RData.falseD => ([{ resp with poison_pill := true }], none)
    | RData.readingD r =>
        if r.failure.isSome then ([{ resp with poison_pill := true }], none)
        else if r.spectrum.isSome then ([resp], none)
        else ([], none)
    | RData.trueD => ([], some PyErr.attributeError)
    | RData.noneD => ([], none)

/-- How one steady-state cycle ends: break out of the loop (poison pill),
continue with the next cycle, or crash the worker thread with an uncaught
exception. -/
inductive CycleOutcome where
  | exitLoop
  | continueLoop
  | crashed (e : PyErr)
  deriving Repr, DecidableEq

/-- Observables of one steady-state cycle: final session state, the requests
issued to the device handler, the responses published on the response queue,
and how the cycle ended. -/
structure CycleResult where
  st : DeviceState
  issued : List SpectrometerRequest
  published : List SpectrometerResponse
  outcome : CycleOutcome
  deriving Repr, DecidableEq

/-- One steady-state pass of WrapperWorker.run (lines 120-217): dedupe the
drained mailbox batch, apply every surviving command through the handler,
break before acquiring when the poison flag is set, else perform the blocking
acquisition and classify/publish. dedupe and command application run outside
any try block, so their exceptions crash the thread; the acquisition call is
wrapped in try/except and an exception there abandons the cycle without
publishing. The num_connected_devices and subprocess_timeout_sec local peeks
and the closing scaled sleep only affect the poll delay and are omitted. -/
def runCycle (dev : Handler) (st : DeviceState) (batch : List QItem) : CycleResult :=
  match dedupe batch with
  | Except.error e =>
      { st := st, issued := [], published := [], outcome := CycleOutcome.crashed e }
  | Except.ok dedupped =>
      let cp := applyCommands dev st false dedupped
      match cp.err with
      | some e =>
          { st := cp.st, issued := cp.issued, published := [],
            outcome := CycleOutcome.crashed e }
      | none =>
          if cp.poison then
            { st := cp.st, issued := cp.issued, published := [],
              outcome := CycleOutcome.exitLoop }
          else
            match dev cp.st { cmd := "acquire_data", args := [] } with
            | (st1, Except.error _) =>
                { st := st1, issued := cp.issued ++ [{ cmd := "acquire_data", args := [] }],
                  published := [], outcome := CycleOutcome.continueLoop }
            | (st1, Except.ok resp) =>
                match classifyResponse resp with
                | (pubs, some e) =>
                    { st := st1,
                      issued := cp.issued ++ [{ cmd := "acquire_data", args := [] }],
                      published := pubs, outcome := CycleOutcome.crashed e }
                | (pubs, none) =>
                    { st := st1,
                      issued := cp.issued ++ [{ cmd := "acquire_data", args := [] }],
                      published := pubs, outcome := CycleOutcome.continueLoop }

/-- The requests that forwarding a command list produces. -/
def requestsOf (l : List QItem) : List SpectrometerRequest :=
  l.filterMap (fun it => it.map (fun co => { cmd := co.1, args := [co.2] }))

/-- On a poison-free command list the loop never flips the poison flag, and
when no handler call raises, exactly the mapped requests are issued in
order. -/
theorem applyCommands_none_free (dev : Handler) :
    ∀ (l : List QItem) (st : DeviceState) (p : Bool), none ∉ l →
      (applyCommands dev st p l).poison = p ∧
      ((applyCommands dev st p l).err = none →
        (applyCommands dev st p l).issued = requestsOf l) := by
  intro l
  induction l with
  | nil =>
      intro st p _
      exact ⟨rfl, fun _ => rfl⟩
  | cons x rest ih =>
      intro st p hfree
      match x with
      | none => exact absurd (List.mem_cons_self none rest) hfree
      | some co =>
          have hrest : none ∉ rest := fun hh => hfree (List.mem_cons_of_mem _ hh)
          have hreq : requestsOf (some co :: rest) =
              { cmd := co.1, args := [co.2] } :: requestsOf rest := rfl
          simp only [applyCommands]
          rcases hdev : dev st { cmd := co.1, args := [co.2] } with ⟨st1, res⟩
          cases res with
          | error e =>
              refine ⟨rfl, fun hc => ?_⟩
              exact absurd hc (by simp)
          | ok r =>
              obtain ⟨ihp, ihi⟩ := ih st1 p hrest
              refine ⟨ihp, fun he => ?_⟩
              rw [hreq]
              simp only at he ⊢
              rw [ihi he]

/-- Appending the poison pill at the end of the batch only sets the poison
flag — unless a handler call raised first, in which case the pill is never
reached. -/
theorem applyCommands_append_none (dev : Handler) :
    ∀ (l : List QItem) (st : DeviceState) (p : Bool),
      applyCommands dev st p (l ++ [none]) =
        (if (applyCommands dev st p l).err = none then
          { applyCommands dev st p l with poison := true }
        else applyCommands dev st p l) := by
  intro l
  induction l with
  | nil =>
      intro st p
      simp [applyCommands]
  | cons x rest ih =>
      intro st p
      match x with
      | none =>
          simp only [List.cons_append, applyCommands]
          exact ih st true
      | some co =>
          simp only [List.cons_append, applyCommands]
          rcases hdev : dev st { cmd := co.1, args := [co.2] } with ⟨st1, res⟩
          cases res with
          | error e => simp
          | ok r =>
              dsimp only
              simp only [List.append_eq]
              rw [ih st1 p]
              by_cases he : (applyCommands dev st1 p rest).err = none
              · simp [he]
              · simp [he]

/-- dedupe of a batch ending in the poison pill: the pill survives at the
end and the commands dedupe as usual. -/
theorem dedupe_append_none (cmds : List QItem) (hfree : none ∉ cmds) :
    dedupe (cmds ++ [none]) = Except.ok (keepLast cmds ++ [none]) := by
  rw [dedupe, dedupeGo_append cmds [] [none]]
  have h1 : dedupeGo [] cmds = Except.ok (keepLast cmds) := by
    have h2 := dedupeGo_none_free cmds [] hfree (by simp) (by simp)
    simpa using h2
  rw [h1]
  simp only [dedupeGo]
  rw [show itemName none = none from rfl,
    removeSetting_none_key (keepLast cmds) (keepLast_none_free hfree)]

/-- C2 (amended). For every command batch whose terminal (poison-pill) marker
is the final element — and whose surviving commands apply without raising —
the cycle sets the shutdown flag without preempting the other commands: every
surviving non-marker command is forwarded to the device request handler in
order, nothing is published, and the loop exits before issuing that cycle
acquisition request (no acquire_data request is issued). If any element
follows the marker, dedupe raises AttributeError on the None already in its
kept list and the cycle crashes instead (see the counterexample). -/
theorem poison_pill_last_position (dev : Handler) (st : DeviceState)
    (cmds : List QItem) (hfree : none ∉ cmds)
    (hok : (applyCommands dev st false (keepLast cmds)).err = none) :
    (runCycle dev st (cmds ++ [none])).outcome = CycleOutcome.exitLoop ∧
    (runCycle dev st (cmds ++ [none])).issued = requestsOf (keepLast cmds) ∧
    (runCycle dev st (cmds ++ [none])).published = [] ∧
    (runCycle dev st (cmds ++ [none])).st = (applyCommands dev st false (keepLast cmds)).st := by
  have hded := dedupe_append_none cmds hfree
  have happ := applyCommands_append_none dev (keepLast cmds) st false
  rw [hok] at happ
  simp only [if_pos] at happ
  have hfree2 : none ∉ keepLast cmds := keepLast_none_free hfree
  obtain ⟨hp, hi⟩ := applyCommands_none_free dev (keepLast cmds) st false hfree2
  have hcycle : runCycle dev st (cmds ++ [none]) =
      { st := (applyCommands dev st false (keepLast cmds)).st,
        issued := (applyCommands dev st false (keepLast cmds)).issued,
        published := [], outcome := CycleOutcome.exitLoop } := by
    rw [runCycle, hded]
    dsimp only
    rw [happ]
    simp [hok]
  rw [hcycle]
  exact ⟨rfl, hi hok, rfl, rfl⟩

/-- The concrete scenario batch of the claim:
[(laser_enabled,1), (laser_enabled,0), STOP]. -/
def c2Batch : List QItem := [some ("laser_enabled", 1), some ("laser_enabled", 0), none]

/-- C2 witness: on the scenario batch the cycle issues exactly
laser_enabled=0 to the device handler, publishes nothing and exits before
acquiring. -/
theorem poison_pill_last_position_witness :
    (runCycle (spiHandle (AcquireOutcome.pairs [])) baseState c2Batch).outcome =
      CycleOutcome.exitLoop ∧
    (runCycle (spiHandle (AcquireOutcome.pairs [])) baseState c2Batch).issued =
      [{ cmd := "laser_enabled", args := [0] }] ∧
    (runCycle (spiHandle (AcquireOutcome.pairs [])) baseState c2Batch).published = [] := by
  have h := poison_pill_last_position (spiHandle (AcquireOutcome.pairs [])) baseState
    [some ("laser_enabled", 1), some ("laser_enabled", 0)] (by decide) (by decide)
  refine ⟨h.1, ?_, h.2.2.1⟩
  exact h.2.1.trans (by decide)

/-- C2 counterexample. When the terminal marker is not last, the removal pass
of dedupe dereferences .setting on the None already kept and the worker
thread crashes with AttributeError: the shutdown flag is never set and the
surviving laser_enabled=0 command is never applied, refuting the claim as
stated for arbitrary marker positions. -/
theorem poison_pill_mid_batch_crash :
    runCycle (spiHandle (AcquireOutcome.pairs [])) baseState
        [none, some ("laser_enabled", 0)] =
      { st := baseState, issued := [], published := [],
        outcome := CycleOutcome.crashed PyErr.attributeError } := by
  decide

/-- C5. In a steady-state cycle (device connected, empty mailbox) whose
blocking acquisition raises the transport error, the failure counter is
incremented by exactly one and the AttributeError raised while logging it is
caught by the run loop: nothing is published, the worker stays connected and
the loop continues with the next cycle. -/
theorem transport_error_cycle (st : DeviceState) (hd2 : st.disconnect = false) :
    (runCycle (spiHandle AcquireOutcome.busError) st []).published = [] ∧
    (runCycle (spiHandle AcquireOutcome.busError) st []).outcome =
      CycleOutcome.continueLoop ∧
    (runCycle (spiHandle AcquireOutcome.busError) st []).st.failure_count =
      st.failure_count + 1 ∧
    (runCycle (spiHandle AcquireOutcome.busError) st []).st.disconnect = false := by
  simp [runCycle, dedupe, dedupeGo, applyCommands, spiHandle, acquire_data, Acquire, hd2]

/-- C5 witness: the theorem applied to the concrete connected base state. -/
theorem transport_error_cycle_witness :
    (runCycle (spiHandle AcquireOutcome.busError) baseState []).published = [] ∧
    (runCycle (spiHandle AcquireOutcome.busError) baseState []).outcome =
      CycleOutcome.continueLoop ∧
    (runCycle (spiHandle AcquireOutcome.busError) baseState []).st.failure_count =
      baseState.failure_count + 1 ∧
    (runCycle (spiHandle AcquireOutcome.busError) baseState []).st.disconnect = false :=
  transport_error_cycle baseState rfl
